import Mathlib

set_option maxRecDepth 100000

/- Verification development for src/mkidpipeline/hdf/binprocessor.c, the Gen2 .bin
   packet-stream decoder (extract_photons and its helpers).  Machine words are
   modelled as Nat: an 8-byte word is represented by its value after the
   __bswap_64 to host order, so the little-endian C bit-fields (allocated from the
   least significant bit) become shift-and-mask extractions.  Fixed-width C
   arithmetic is modelled with an explicit modulus wherever the width matters. -/

/- Bit layout of struct hdrpacket (lines 54-59): timestamp:36, frame:12, roach:8,
   start:8, allocated LSB-first, so the start marker is the top byte. -/
def hdrStart (w : Nat) : Nat := w / 2 ^ 56 % 2 ^ 8

def hdrTimestamp (w : Nat) : Nat := w % 2 ^ 36

/- Bit layout of struct datapacket (lines 46-52): baseline:17, wvl:18,
   timestamp:9, ycoord:10, xcoord:10, allocated LSB-first. -/
def dXcoord (w : Nat) : Nat := w / 2 ^ 54 % 2 ^ 10

def dYcoord (w : Nat) : Nat := w / 2 ^ 44 % 2 ^ 10

def dTimestamp (w : Nat) : Nat := w / 2 ^ 35 % 2 ^ 9

/- The wvl field is a signed 18-bit quantity (two's complement). -/
def dWvlRaw (w : Nat) : Int :=
  let u : Nat := w / 2 ^ 17 % 2 ^ 18
  if u < 2 ^ 17 then (u : Int) else (u : Int) - 2 ^ 18

/- C99 division of ints truncates toward zero; Lean's Int division is euclidean,
   so for a positive divisor the truncated quotient is obtained by sign analysis. -/
def cQuot (a : Int) (n : Nat) : Int := if 0 ≤ a then a / n else -((-a) / n)

/- Lines 65-70, FixOverflowTimestamps: nWraps as computed by the C int division
   (fudgeFactor = 3, wrap modulus 1048576 = 2^20). -/
def nWrapsOf (t : Nat) (fileNameTime tsOffs : Int) : Int :=
  cQuot (fileNameTime - tsOffs - (t / 2000 : Nat) + 3) 1048576

/- Line 69: hdr->timestamp += 2000*nWraps*1048576.  The timestamp is a 36-bit
   unsigned bit-field, so the store truncates modulo 2^36 (and a negative sum
   wraps the same way, which emod models).  The int product 2000*nWraps*1048576
   is modelled as exact integer arithmetic. -/
def FixOverflowTimestamps (t : Nat) (fileNameTime tsOffs : Int) : Nat :=
  (((t : Int) + 2000 * nWrapsOf t fileNameTime tsOffs * 1048576) % (2 ^ 36 : Int)).toNat

/- struct photon, as used at lines 195-199 and 462: resID, timestamp (stored
   through a cast to uint32_t), wvl, wSpec, wNoise.  The C wvl field is the float
   data->wvl * RAD2DEG / 32768.0; we store the raw signed 18-bit data->wvl value
   instead (the scaling is a fixed injective map and floats are out of scope);
   wSpec and wNoise are the constant 1.0, stored as the integer 1. -/
structure photon where
  resID : Nat
  timestamp : Nat
  wvl : Int
  wSpec : Int
  wNoise : Int
deriving DecidableEq

/- One per-pixel photon table: the malloc'd capacity in photons together with the
   photons stored so far (ptable[x][y] plus ptablect[x][y]). -/
structure PBuf where
  cap : Nat
  data : List photon
deriving DecidableEq

/- Lines 186-200: if the count has the form 2500k+2498 the table is realloc'd to
   2500*(cursize+1) photons where cursize = ceil(ct/2500.0) = (ct+2499)/2500;
   then the photon is stored at index ct.  The Bool records that the store was
   inside the allocated capacity (false would be an out-of-bounds write). -/
def appendPhoton (b : PBuf) (p : photon) : PBuf × Bool :=
  let ct := b.data.length
  let b1 := if ct % 2500 = 2498 then PBuf.mk (2500 * ((ct + 2499) / 2500 + 1)) b.data else b
  (PBuf.mk b1.cap (b1.data ++ [p]), decide (ct < b1.cap))

/- The mutable state threaded through ParseToMem: the per-pixel tables and a flag
   that stays true as long as every store was in bounds. -/
structure PTState where
  ptable : Nat → Nat → PBuf
  ok : Bool

/- One iteration of the data-word loop, lines 178-201: decode the word, skip it
   if the coordinates are outside the beam map extents, skip it if mapflag is set
   and the pixel's flag is nonzero, otherwise append a photon whose timestamp is
   (uint32_t)(basetime*500 + data->timestamp). -/
def parseWord (bm bf : Nat → Nat → Nat) (mapflag cols rows : Nat) (bt : Nat)
    (st : PTState) (w : Nat) : PTState :=
  if cols ≤ dXcoord w ∨ rows ≤ dYcoord w then st
  else if 0 < mapflag ∧ 0 < bf (dXcoord w) (dYcoord w) then st
  else
    let p : photon :=
      ⟨bm (dXcoord w) (dYcoord w), (bt * 500 + dTimestamp w) % 2 ^ 32, dWvlRaw w, 1, 1⟩
    let r := appendPhoton (st.ptable (dXcoord w) (dYcoord w)) p
    ⟨fun x y => if x = dXcoord w ∧ y = dYcoord w then r.1 else st.ptable x y, st.ok && r.2⟩

/- Lines 149-203, ParseToMem: a packet is a list of words; the first word must
   carry the 0b11111111 start marker, its timestamp is overflow-corrected with
   fileNameTime = FirstFile + iFile, and basetime = corrected timestamp - tstart
   (int64_t); a negative basetime drops the whole packet; otherwise each
   following word is handled by parseWord. -/
def ParseToMem (pkt : List Nat) (tsOffs FirstFile iFile : Nat) (bm bf : Nat → Nat → Nat)
    (mapflag cols rows : Nat) (tstart : Nat) (st : PTState) : PTState :=
  match pkt with
  | [] => st
  | w0 :: ws =>
    if hdrStart w0 = 255 then
      let basetime : Int :=
        (FixOverflowTimestamps (hdrTimestamp w0) ((FirstFile : Int) + (iFile : Int))
          (tsOffs : Int) : Int) - (tstart : Int)
      if basetime < 0 then st
      else ws.foldl (parseWord bm bf mapflag cols rows basetime.toNat) st
    else st

def isHdrWord (w : Nat) : Bool := hdrStart w == 255

/- Lines 364-379: from the word after the first header, every word whose top
   byte is the marker closes the packet begun at the previous marker and starts
   a new one; acc holds the words of the packet currently being accumulated.
   When the file ends the words accumulated since the last marker are discarded
   (the C loop only calls ParseToMem when it sees the NEXT header). -/
def frameLoop : List Nat → List Nat → List (List Nat)
  | _, [] => []
  | acc, w :: ws => if isHdrWord w then acc :: frameLoop [w] ws else frameLoop (acc ++ [w]) ws

/- Lines 351-361 then 364-379: scan for the first header word, then slice the
   rest of the file at header words.  A file with no header word at all leaves
   the C locals stale (undefined behaviour); it is modelled as yielding no
   packets. -/
def framePackets (ws : List Nat) : List (List Nat) :=
  match ws.dropWhile (fun w => !isHdrWord w) with
  | [] => []
  | h :: rest => frameLoop [h] rest

/- One successfully scanned line of the beam-map file: ResID, flag, X, Y
   (lines 111-137).  Values are modelled as the naturals the file carries. -/
structure BeamLine where
  resid : Nat
  flag : Nat
  x : Nat
  y : Nat
deriving DecidableEq

/- Line 227: beamMapInitVal = (uint32_t)(-1). -/
def sentinelResID : Nat := 2 ^ 32 - 1

/- Lines 111-137, ParseBeamMapFile: each scanned line overwrites BeamMap[x][y]
   with the ResID and BeamFlag[x][y] with the flag collapsed to 2 when above 1.
   (The C loop re-executes the two stores once more after the final failed
   fscanf with the previous line's values, a no-op; with zero scanned lines that
   re-execution reads uninitialized locals - undefined behaviour not modelled.) -/
def ParseBeamMapFile (lines : List BeamLine) (bm bf : Nat → Nat → Nat) :
    (Nat → Nat → Nat) × (Nat → Nat → Nat) :=
  lines.foldl
    (fun g e =>
      (fun x y => if x = e.x ∧ y = e.y then e.resid else g.1 x y,
       fun x y => if x = e.x ∧ y = e.y then (if 1 < e.flag then 2 else e.flag) else g.2 x y))
    (bm, bf)

/- The environment extract_photons reads through libc: whether the opendir/errno
   check at lines 253-254 passes, the year-start UTC offset computed by
   gmtime/timegm at lines 262-268, the word stream of each .bin file (index i
   stands for <binpath>/<FirstFile+i>.bin, words already byte-swapped), and the
   successfully fscanf'd beam-map lines. -/
structure Env where
  dirExists : Bool
  tsOffs : Nat
  files : Nat → List Nat
  beamLines : List BeamLine

/- Lines 304-306: BeamMap is initialized to beamMapInitVal and BeamFlag to 1
   before the beam-map file is parsed over them. -/
def beamGrids (env : Env) : (Nat → Nat → Nat) × (Nat → Nat → Nat) :=
  ParseBeamMapFile env.beamLines (fun _ _ => sentinelResID) (fun _ _ => 1)

/- Lines 286, 299: DiskBeamMap has beamCols*beamRows calloc'd rows; row j holds
   the j-th scanned line and rows past the scanned count stay all-zero. -/
def diskEntry (lines : List BeamLine) (j : Nat) : BeamLine := lines.getD j ⟨0, 0, 0, 0⟩

/- Lines 309-322: pixels whose ResID is the sentinel get no photon table (their
   pointer stays unallocated, modelled as capacity 0); mapped pixels get a table
   of 2500 photons; every count starts at 0. -/
def initPtable (bm : Nat → Nat → Nat) : Nat → Nat → PBuf :=
  fun x y => if bm x y = sentinelResID then PBuf.mk 0 [] else PBuf.mk 2500 []

/- Lines 337-382: one file's words are framed into packets and each packet is
   fed to ParseToMem. -/
def processFile (ws : List Nat) (tsOffs FirstFile iFile : Nat) (bm bf : Nat → Nat → Nat)
    (mapflag cols rows tstart : Nat) (st : PTState) : PTState :=
  (framePackets ws).foldl
    (fun s pkt => ParseToMem pkt tsOffs FirstFile iFile bm bf mapflag cols rows tstart s) st

/- The per-pixel tables after all nFiles files are decoded (lines 246-382):
   mapflag is the literal 1 set at line 248, tstart = (FirstFile - tsOffs)*2000
   from line 269 (tsOffs, the Jan-1-of-the-start-year epoch second, never
   exceeds the start timestamp). -/
def parsedState (env : Env) (FirstFile nFiles cols rows : Nat) : PTState :=
  let g := beamGrids env
  (List.range nFiles).foldl
    (fun s i =>
      processFile (env.files i) env.tsOffs FirstFile i g.1 g.2 1 cols rows
        (2000 * (FirstFile - env.tsOffs)) s)
    (PTState.mk (initPtable g.1) true)

/- Lines 85-108: the insertion step of SortPhotonTables.  The C code scans the
   already-sorted prefix from the right and re-inserts the element just after
   the rightmost earlier photon whose timestamp is not greater; on a sorted
   prefix that is the same position as scanning from the left and stopping at
   the first strictly greater timestamp, which is what this function does. -/
def insertPhoton (p : photon) : List photon → List photon
  | [] => [p]
  | q :: qs => if q.timestamp ≤ p.timestamp then q :: insertPhoton p qs else p :: q :: qs

/- Lines 82-108: each element past the first is inserted into the sorted prefix
   to its left, processing the table left to right. -/
def sortPhotons (l : List photon) : List photon :=
  l.foldl (fun acc p => insertPhoton p acc) []

/- Lines 75-109, SortPhotonTables: every pixel's table is sorted in place by
   timestamp; the capacity and count are untouched. -/
def SortPhotonTables (pt : Nat → Nat → PBuf) : Nat → Nat → PBuf :=
  fun x y => PBuf.mk (pt x y).cap (sortPhotons (pt x y).data)

/- Lines 392-400: the output pass walks j over all beamCols*beamRows rows of
   DiskBeamMap, skips pixels whose ResID is the sentinel or whose count is
   zero, and memcpy's the pixel's table onto the end of otable, accumulating
   nPhot.  n in this model is beamCols*beamRows. -/
def flattenTables (lines : List BeamLine) (bm : Nat → Nat → Nat)
    (tbl : Nat → Nat → List photon) (n : Nat) : Int × List photon :=
  (List.range n).foldl
    (fun acc j =>
      let e := diskEntry lines j
      if bm e.x e.y = sentinelResID then acc
      else if (tbl e.x e.y).length = 0 then acc
      else (acc.1 + ((tbl e.x e.y).length : Int), acc.2 ++ tbl e.x e.y))
    (0, [])

/- Lines 206-443, extract_photons: the result is the C return value paired with
   the photons written to otable (nothing is written on the early error
   returns).  nFiles = integration_time+1 truncated to uint32_t; note that the
   n_max_photons argument is accepted but never read by the C function. -/
def extract_photons (env : Env) (start_timestamp integration_time : Nat)
    (bmap_ncol bmap_nrow n_max_photons : Nat) : Int × List photon :=
  let nFiles := (integration_time + 1) % 2 ^ 32
  if env.dirExists = false then (-1, [])
  else if nFiles < 1 ∨ 1800 < nFiles then (-1, [])
  else
    let st := parsedState env start_timestamp nFiles bmap_ncol bmap_nrow
    flattenTables env.beamLines (beamGrids env).1
      (fun x y => (SortPhotonTables st.ptable x y).data) (bmap_ncol * bmap_nrow)

/- Modelled from the spec: claim C2's stated formula
   wraps = floor((fileNominalSecond - yearEpochOffset - t/2000 + 3) / 1048576);
   for the positive divisor 1048576 Lean's euclidean division is exactly the
   floor, unlike the truncating C division the source uses. -/
def nWrapsSpecC2 (t : Nat) (fileNameTime tsOffs : Int) : Int :=
  (fileNameTime - tsOffs - (t / 2000 : Nat) + 3) / 1048576

/- Modelled from the spec, for claim C7: the buffer selected at flatten index j
   (empty when skipped), so that the claimed output is the concatenation of
   these over all j. -/
def pickC7 (lines : List BeamLine) (bm : Nat → Nat → Nat)
    (tbl : Nat → Nat → List photon) (j : Nat) : List photon :=
  let e := diskEntry lines j
  if bm e.x e.y = sentinelResID then []
  else if (tbl e.x e.y).length = 0 then []
  else tbl e.x e.y

/- The invariant capacity of a per-pixel table that has received n appends
   through appendPhoton starting from the fresh 2500-photon allocation. -/
def capAfter (n : Nat) : Nat := 2500 * ((n + 1) / 2500 + 1)

/- N appends through the growth policy of lines 186-200, starting from the
   fresh table of line 320 (capacity 2500, count 0); the Bool stays true while
   every store is in bounds. -/
def appendRun (ps : List photon) : PBuf × Bool :=
  ps.foldl (fun s p => let r := appendPhoton s.1 p; (r.1, s.2 && r.2)) (PBuf.mk 2500 [], true)

/- Sortedness by timestamp, the order SortPhotonTables establishes. -/
def tsSorted (l : List photon) : Prop :=
  l.Pairwise (fun a b => a.timestamp ≤ b.timestamp)

instance tsSortedDec : (l : List photon) → Decidable (tsSorted l)
  | [] => isTrue List.Pairwise.nil
  | p :: ps =>
    have : Decidable (tsSorted ps) := tsSortedDec ps
    decidable_of_iff ((∀ b ∈ ps, p.timestamp ≤ b.timestamp) ∧ tsSorted ps)
      (by unfold tsSorted; rw [List.pairwise_cons])

/- Concrete words and environments used by witnesses and counterexamples. -/

/- A header word: marker 255 in the top byte, hardware timestamp 0. -/
def hW : Nat := 255 * 2 ^ 56

/- A data word decoding to xcoord 0, ycoord 0, sub-timestamp 0, wvl 0. -/
def dW : Nat := 0

/- A data word decoding to xcoord 0, ycoord 0, sub-timestamp 7, wvl 0. -/
def dW7 : Nat := 7 * 2 ^ 35

/- A header word with hardware timestamp 2^35. -/
def h35 : Nat := 255 * 2 ^ 56 + 2 ^ 35

/- The photon produced by decoding dW after a header with basetime 0 at the
   pixel mapped to ResID 5. -/
def p0 : photon := ⟨5, 0, 0, 1, 1⟩

/- A second photon with a later timestamp, for sortedness witnesses. -/
def p3 : photon := ⟨5, 3, 0, 1, 1⟩

/- A run whose single file ends with an unterminated packet [hW, dW]. -/
def env1 : Env :=
  { dirExists := true, tsOffs := 0, files := fun _ => [hW, dW],
    beamLines := [⟨5, 0, 0, 0⟩] }

/- A run whose single file is [hW, dW, hW]: one completed packet with one data
   word for pixel (0,0), then a final header. -/
def env5 : Env :=
  { dirExists := true, tsOffs := 0, files := fun _ => [hW, dW, hW],
    beamLines := [⟨5, 0, 0, 0⟩] }

/- The fresh parse state of env1's run. -/
def st1 : PTState := PTState.mk (initPtable (beamGrids env1).1) true

/- env5's run on a 1-column 2-row beam map: only one beam-map line is present,
   so DiskBeamMap row 1 is all zeros. -/
def env7 : Env :=
  { dirExists := true, tsOffs := 0, files := fun _ => [hW, dW, hW],
    beamLines := [⟨5, 0, 0, 0⟩] }

/- The fresh parse state of env7's run. -/
def st7 : PTState := PTState.mk (initPtable (beamGrids env7).1) true

/- Helper lemmas about the insertion step of SortPhotonTables. -/

theorem insertPhoton_perm (p : photon) (l : List photon) :
    (insertPhoton p l).Perm (p :: l) := by
  induction l with
  | nil => simp [insertPhoton]
  | cons q qs ih =>
    unfold insertPhoton
    split
    · exact (ih.cons q).trans (List.Perm.swap p q qs)
    · exact List.Perm.refl _

theorem tsSorted_insertPhoton (p : photon) (l : List photon) (h : tsSorted l) :
    tsSorted (insertPhoton p l) := by
  induction l with
  | nil => simp [insertPhoton, tsSorted]
  | cons q qs ih =>
    rw [tsSorted, List.pairwise_cons] at h
    unfold insertPhoton
    split
    · rename_i hqp
      rw [tsSorted, List.pairwise_cons]
      refine ⟨fun b hb => ?_, ih h.2⟩
      rcases List.mem_cons.mp ((insertPhoton_perm p qs).mem_iff.mp hb) with hbp | hbq
      · exact hbp ▸ hqp
      · exact h.1 b hbq
    · rename_i hqp
      rw [tsSorted, List.pairwise_cons]
      refine ⟨fun b hb => ?_, List.pairwise_cons.mpr ⟨h.1, h.2⟩⟩
      rcases List.mem_cons.mp hb with hbq | hbq
      · subst hbq; omega
      · have := h.1 b hbq; omega

theorem sortPhotons_go_sorted (l : List photon) :
    ∀ acc : List photon, tsSorted acc →
      tsSorted (l.foldl (fun a p => insertPhoton p a) acc) := by
  induction l with
  | nil => intro acc h; simpa using h
  | cons p ls ih =>
    intro acc h
    rw [List.foldl_cons]
    exact ih _ (tsSorted_insertPhoton p acc h)

theorem sortPhotons_go_perm (l : List photon) :
    ∀ acc : List photon, (l.foldl (fun a p => insertPhoton p a) acc).Perm (acc ++ l) := by
  induction l with
  | nil => intro acc; simp
  | cons p ls ih =>
    intro acc
    rw [List.foldl_cons]
    have h1 : (insertPhoton p acc).Perm (acc ++ [p]) :=
      (insertPhoton_perm p acc).trans (List.perm_append_singleton p acc).symm
    have h2 := (ih (insertPhoton p acc)).trans (h1.append_right ls)
    simpa using h2

theorem insertPhoton_eq_append (p : photon) (acc : List photon)
    (h : ∀ a ∈ acc, a.timestamp ≤ p.timestamp) : insertPhoton p acc = acc ++ [p] := by
  induction acc with
  | nil => rfl
  | cons q qs ih =>
    unfold insertPhoton
    rw [if_pos (h q (List.mem_cons_self q qs))]
    rw [ih fun a ha => h a (List.mem_cons_of_mem q ha)]
    rfl

theorem sortPhotons_go_id (l : List photon) :
    ∀ acc : List photon, tsSorted (acc ++ l) →
      l.foldl (fun a p => insertPhoton p a) acc = acc ++ l := by
  induction l with
  | nil => intro acc _; simp
  | cons p ls ih =>
    intro acc h
    have hle : ∀ a ∈ acc, a.timestamp ≤ p.timestamp := by
      rw [tsSorted, List.pairwise_append] at h
      exact fun a ha => h.2.2 a ha p (List.mem_cons_self p ls)
    rw [List.foldl_cons, insertPhoton_eq_append p acc hle]
    have h' : tsSorted ((acc ++ [p]) ++ ls) := by
      simpa [List.append_assoc] using h
    rw [ih (acc ++ [p]) h']
    simp

theorem sortPhotons_sorted (l : List photon) : tsSorted (sortPhotons l) :=
  sortPhotons_go_sorted l [] (by simp [tsSorted])

theorem sortPhotons_perm (l : List photon) : (sortPhotons l).Perm l := by
  simpa using sortPhotons_go_perm l []

theorem sortPhotons_id (l : List photon) (h : tsSorted l) : sortPhotons l = l := by
  simpa using sortPhotons_go_id l [] (by simpa using h)

/- Helper lemmas for the growth policy of appendPhoton. -/

theorem appendPhoton_spec (b : PBuf) (p : photon) (h : b.cap = capAfter b.data.length) :
    appendPhoton b p = (PBuf.mk (capAfter (b.data.length + 1)) (b.data ++ [p]), true) := by
  unfold capAfter at h ⊢
  by_cases ht : b.data.length % 2500 = 2498
  · have hcap : 2500 * ((b.data.length + 2499) / 2500 + 1)
        = 2500 * ((b.data.length + 1 + 1) / 2500 + 1) := by omega
    have hok : b.data.length < 2500 * ((b.data.length + 1 + 1) / 2500 + 1) := by omega
    simp [appendPhoton, ht, hcap, hok]
  · have hcap : b.cap = 2500 * ((b.data.length + 1 + 1) / 2500 + 1) := by omega
    have hok : b.data.length < 2500 * ((b.data.length + 1 + 1) / 2500 + 1) := by omega
    simp [appendPhoton, ht, hcap, hok]

theorem appendPhoton_data (b : PBuf) (p : photon) :
    (appendPhoton b p).1.data = b.data ++ [p] := by
  by_cases ht : b.data.length % 2500 = 2498 <;> simp [appendPhoton, ht]

theorem appendRun_go (ps : List photon) :
    ∀ (b : PBuf) (ok : Bool), b.cap = capAfter b.data.length →
      ps.foldl (fun s p => let r := appendPhoton s.1 p; (r.1, s.2 && r.2)) (b, ok)
        = (PBuf.mk (capAfter (b.data.length + ps.length)) (b.data ++ ps), ok) := by
  induction ps with
  | nil =>
    intro b ok h
    simp only [List.foldl_nil, List.length_nil, Nat.add_zero, List.append_nil]
    rw [← h]
  | cons p ps ih =>
    intro b ok h
    rw [List.foldl_cons]
    simp only [appendPhoton_spec b p h, Bool.and_true]
    have := ih (PBuf.mk (capAfter (b.data.length + 1)) (b.data ++ [p])) ok (by simp)
    simp only [List.length_append, List.length_singleton] at this
    rw [this]
    have harg : b.data.length + 1 + ps.length = b.data.length + (ps.length + 1) := by omega
    rw [harg]
    simp [List.append_assoc]

/- Helper lemmas for the packet framer. -/

theorem frameLoop_cons (acc : List Nat) (w : Nat) (ws : List Nat) :
    frameLoop acc (w :: ws)
      = if isHdrWord w then acc :: frameLoop [w] ws else frameLoop (acc ++ [w]) ws := rfl

theorem frameLoop_nohdr (tail : List Nat) :
    ∀ acc : List Nat, (∀ w ∈ tail, isHdrWord w = false) → frameLoop acc tail = [] := by
  induction tail with
  | nil => intro acc _; rfl
  | cons w ws ih =>
    intro acc h
    unfold frameLoop
    rw [h w (List.mem_cons_self w ws)]
    exact ih _ fun v hv => h v (List.mem_cons_of_mem w hv)

theorem frameLoop_append (ws : List Nat) (tail : List Nat)
    (htail : ∀ w ∈ tail, isHdrWord w = false) :
    ∀ acc : List Nat, frameLoop acc (ws ++ tail) = frameLoop acc ws := by
  induction ws with
  | nil =>
    intro acc
    rw [List.nil_append, frameLoop_nohdr tail acc htail]
    rfl
  | cons w ws ih =>
    intro acc
    rw [List.cons_append]
    unfold frameLoop
    split <;> rw [ih]

theorem dropWhile_nohdr (l : List Nat) (h : ∀ w ∈ l, isHdrWord w = false) :
    l.dropWhile (fun w => !isHdrWord w) = [] := by
  induction l with
  | nil => rfl
  | cons w ws ih =>
    rw [List.dropWhile_cons]
    rw [h w (List.mem_cons_self w ws)]
    simp only [Bool.not_false, if_true]
    exact ih fun v hv => h v (List.mem_cons_of_mem w hv)

theorem frameLoop_interior (mid : List Nat) (w : Nat) (tail : List Nat)
    (hmid : ∀ m ∈ mid, isHdrWord m = false) (hw : isHdrWord w = true) :
    ∀ acc : List Nat, frameLoop acc (mid ++ w :: tail) = (acc ++ mid) :: frameLoop [w] tail := by
  induction mid with
  | nil =>
    intro acc
    rw [List.nil_append, List.append_nil, frameLoop_cons, hw]
    simp
  | cons m ms ih =>
    intro acc
    rw [List.cons_append, frameLoop_cons, hmid m (List.mem_cons_self m ms)]
    simp only [Bool.false_eq_true, if_false]
    rw [ih (fun v hv => hmid v (List.mem_cons_of_mem m hv)) (acc ++ [m])]
    simp

/- Helper lemmas about parseWord and ParseToMem. -/

theorem parseWord_skip_oob (bm bf : Nat → Nat → Nat) (mf cols rows bt : Nat)
    (st : PTState) (w : Nat) (h : cols ≤ dXcoord w ∨ rows ≤ dYcoord w) :
    parseWord bm bf mf cols rows bt st w = st := by
  unfold parseWord
  rw [if_pos h]

theorem parseWord_skip_flag (bm bf : Nat → Nat → Nat) (mf cols rows bt : Nat)
    (st : PTState) (w : Nat) (h1 : 0 < mf) (h2 : 0 < bf (dXcoord w) (dYcoord w)) :
    parseWord bm bf mf cols rows bt st w = st := by
  unfold parseWord
  by_cases hb : cols ≤ dXcoord w ∨ rows ≤ dYcoord w
  · rw [if_pos hb]
  · rw [if_neg hb, if_pos ⟨h1, h2⟩]

theorem ParseToMem_cons (w0 : Nat) (ws : List Nat) (tsOffs FirstFile iFile : Nat)
    (bm bf : Nat → Nat → Nat) (mapflag cols rows : Nat) (tstart : Nat) (st : PTState) :
    ParseToMem (w0 :: ws) tsOffs FirstFile iFile bm bf mapflag cols rows tstart st
      = if hdrStart w0 = 255 then
          (if ((FixOverflowTimestamps (hdrTimestamp w0) ((FirstFile : Int) + (iFile : Int))
                (tsOffs : Int) : Int) - (tstart : Int)) < 0 then st
           else ws.foldl
             (parseWord bm bf mapflag cols rows
               ((FixOverflowTimestamps (hdrTimestamp w0) ((FirstFile : Int) + (iFile : Int))
                 (tsOffs : Int) : Int) - (tstart : Int)).toNat) st)
        else st := rfl

theorem parseWord_mem (bm bf : Nat → Nat → Nat) (mf cols rows bt : Nat)
    (st : PTState) (w : Nat) (x y : Nat) (p : photon)
    (h : p ∈ ((parseWord bm bf mf cols rows bt st w).ptable x y).data) :
    p ∈ (st.ptable x y).data ∨
      (dXcoord w = x ∧ dYcoord w = y ∧
        p.timestamp = (bt * 500 + dTimestamp w) % 2 ^ 32) := by
  by_cases hb : cols ≤ dXcoord w ∨ rows ≤ dYcoord w
  · left; simpa [parseWord, hb] using h
  · by_cases hf : 0 < mf ∧ 0 < bf (dXcoord w) (dYcoord w)
    · left; simpa [parseWord, hb, hf] using h
    · simp only [parseWord, hb, hf, if_false] at h
      by_cases hxy : x = dXcoord w ∧ y = dYcoord w
      · rw [if_pos hxy] at h
        rw [appendPhoton_data] at h
        rcases List.mem_append.mp h with hold | hnew
        · left; rw [hxy.1, hxy.2]; exact hold
        · right
          have hp := List.mem_singleton.mp hnew
          subst hp
          exact ⟨hxy.1.symm, hxy.2.symm, rfl⟩
      · left; rwa [if_neg hxy] at h

theorem foldl_parseWord_mem (bm bf : Nat → Nat → Nat) (mf cols rows bt : Nat)
    (ws : List Nat) :
    ∀ (st : PTState) (x y : Nat) (p : photon),
      p ∈ ((ws.foldl (parseWord bm bf mf cols rows bt) st).ptable x y).data →
      p ∈ (st.ptable x y).data ∨
        ∃ w, w ∈ ws ∧ dXcoord w = x ∧ dYcoord w = y ∧
          p.timestamp = (bt * 500 + dTimestamp w) % 2 ^ 32 := by
  induction ws with
  | nil => intro st x y p h; exact Or.inl h
  | cons w ws ih =>
    intro st x y p h
    rw [List.foldl_cons] at h
    rcases ih _ x y p h with h1 | ⟨w', hw', hx, hy, hts⟩
    · rcases parseWord_mem bm bf mf cols rows bt st w x y p h1 with h2 | ⟨hx, hy, hts⟩
      · exact Or.inl h2
      · exact Or.inr ⟨w, List.mem_cons_self w ws, hx, hy, hts⟩
    · exact Or.inr ⟨w', List.mem_cons_of_mem w hw', hx, hy, hts⟩

/- Helper lemmas for the valid-pixels-only invariant: with mapflag positive, a
   pixel whose flag is nonzero never receives a photon. -/

theorem parseWord_flag_inv (bm bf : Nat → Nat → Nat) (mf cols rows bt : Nat)
    (st : PTState) (w : Nat) (hmf : 0 < mf)
    (hinv : ∀ a b, bf a b ≠ 0 → (st.ptable a b).data = []) :
    ∀ a b, bf a b ≠ 0 → ((parseWord bm bf mf cols rows bt st w).ptable a b).data = [] := by
  intro a b hab
  by_cases hb : cols ≤ dXcoord w ∨ rows ≤ dYcoord w
  · simpa [parseWord, hb] using hinv a b hab
  · by_cases hf : 0 < mf ∧ 0 < bf (dXcoord w) (dYcoord w)
    · simpa [parseWord, hb, hf] using hinv a b hab
    · simp only [parseWord, hb, hf, if_false]
      by_cases hxy : a = dXcoord w ∧ b = dYcoord w
      · exfalso
        have h0 : ¬0 < bf (dXcoord w) (dYcoord w) := fun h2 => hf ⟨hmf, h2⟩
        rw [hxy.1, hxy.2] at hab
        omega
      · rw [if_neg hxy]
        exact hinv a b hab

theorem foldl_parseWord_flag_inv (bm bf : Nat → Nat → Nat) (mf cols rows bt : Nat)
    (ws : List Nat) (hmf : 0 < mf) :
    ∀ st : PTState, (∀ a b, bf a b ≠ 0 → (st.ptable a b).data = []) →
      ∀ a b, bf a b ≠ 0 →
        ((ws.foldl (parseWord bm bf mf cols rows bt) st).ptable a b).data = [] := by
  induction ws with
  | nil => intro st hinv; exact hinv
  | cons w ws ih =>
    intro st hinv
    rw [List.foldl_cons]
    exact ih _ (parseWord_flag_inv bm bf mf cols rows bt st w hmf hinv)

theorem ParseToMem_flag_inv (pkt : List Nat) (tsOffs FirstFile iFile : Nat)
    (bm bf : Nat → Nat → Nat) (mf cols rows tstart : Nat) (st : PTState) (hmf : 0 < mf)
    (hinv : ∀ a b, bf a b ≠ 0 → (st.ptable a b).data = []) :
    ∀ a b, bf a b ≠ 0 →
      ((ParseToMem pkt tsOffs FirstFile iFile bm bf mf cols rows tstart st).ptable a b).data
        = [] := by
  match pkt with
  | [] => exact hinv
  | w0 :: ws =>
    rw [ParseToMem_cons]
    split
    · split
      · exact hinv
      · exact foldl_parseWord_flag_inv bm bf mf cols rows _ ws hmf st hinv
    · exact hinv

theorem processFile_flag_inv (ws : List Nat) (tsOffs FirstFile iFile : Nat)
    (bm bf : Nat → Nat → Nat) (mf cols rows tstart : Nat) (st : PTState) (hmf : 0 < mf)
    (hinv : ∀ a b, bf a b ≠ 0 → (st.ptable a b).data = []) :
    ∀ a b, bf a b ≠ 0 →
      ((processFile ws tsOffs FirstFile iFile bm bf mf cols rows tstart st).ptable a b).data
        = [] := by
  unfold processFile
  generalize framePackets ws = pkts
  induction pkts generalizing st with
  | nil => exact hinv
  | cons pkt pkts ih =>
    rw [List.foldl_cons]
    exact ih _ (ParseToMem_flag_inv pkt tsOffs FirstFile iFile bm bf mf cols rows tstart st
      hmf hinv)

theorem ParseBeamMapFile_unlisted (lines : List BeamLine) :
    ∀ (bm bf : Nat → Nat → Nat) (x y : Nat), (∀ l ∈ lines, ¬(l.x = x ∧ l.y = y)) →
      (ParseBeamMapFile lines bm bf).1 x y = bm x y ∧
      (ParseBeamMapFile lines bm bf).2 x y = bf x y := by
  induction lines with
  | nil => intro bm bf x y _; exact ⟨rfl, rfl⟩
  | cons e ls ih =>
    intro bm bf x y h
    have hcons : ParseBeamMapFile (e :: ls) bm bf
        = ParseBeamMapFile ls
            (fun a b => if a = e.x ∧ b = e.y then e.resid else bm a b)
            (fun a b =>
              if a = e.x ∧ b = e.y then (if 1 < e.flag then 2 else e.flag) else bf a b) := rfl
    rw [hcons]
    have hne := h e (List.mem_cons_self e ls)
    have hrest := ih (fun a b => if a = e.x ∧ b = e.y then e.resid else bm a b)
      (fun a b => if a = e.x ∧ b = e.y then (if 1 < e.flag then 2 else e.flag) else bf a b)
      x y fun l hl => h l (List.mem_cons_of_mem e hl)
    have hcond : ¬(x = e.x ∧ y = e.y) := fun hc => hne ⟨hc.1.symm, hc.2.symm⟩
    constructor
    · rw [hrest.1]; exact if_neg hcond
    · rw [hrest.2]; exact if_neg hcond

theorem initPtable_data (bm : Nat → Nat → Nat) (x y : Nat) :
    (initPtable bm x y).data = [] := by
  simp only [initPtable]
  split <;> rfl

theorem foldl_processFile_flag_inv (files : Nat → List Nat) (tsOffs FirstFile : Nat)
    (bm bf : Nat → Nat → Nat) (mf cols rows tstart : Nat) (hmf : 0 < mf) :
    ∀ (is : List Nat) (st : PTState), (∀ a b, bf a b ≠ 0 → (st.ptable a b).data = []) →
      ∀ a b, bf a b ≠ 0 →
        ((is.foldl
          (fun s i => processFile (files i) tsOffs FirstFile i bm bf mf cols rows tstart s)
          st).ptable a b).data = [] := by
  intro is
  induction is with
  | nil => intro st hinv; exact hinv
  | cons i is ih =>
    intro st hinv
    rw [List.foldl_cons]
    exact ih _ (processFile_flag_inv (files i) tsOffs FirstFile i bm bf mf cols rows tstart st
      hmf hinv)

theorem parsedState_flag_inv (env : Env) (FirstFile nFiles cols rows : Nat) :
    ∀ a b, (beamGrids env).2 a b ≠ 0 →
      ((parsedState env FirstFile nFiles cols rows).ptable a b).data = [] := by
  exact foldl_processFile_flag_inv env.files env.tsOffs FirstFile (beamGrids env).1
    (beamGrids env).2 1 cols rows (2000 * (FirstFile - env.tsOffs)) (by omega)
    (List.range nFiles) (PTState.mk (initPtable (beamGrids env).1) true)
    (fun a b _ => initPtable_data (beamGrids env).1 a b)

theorem flattenTables_go (lines : List BeamLine) (bm : Nat → Nat → Nat)
    (tbl : Nat → Nat → List photon) :
    ∀ (js : List Nat) (acc : Int × List photon),
      js.foldl
        (fun acc j =>
          let e := diskEntry lines j
          if bm e.x e.y = sentinelResID then acc
          else if (tbl e.x e.y).length = 0 then acc
          else (acc.1 + ((tbl e.x e.y).length : Int), acc.2 ++ tbl e.x e.y)) acc
      = (acc.1 + (((js.map (pickC7 lines bm tbl)).flatten).length : Int),
         acc.2 ++ (js.map (pickC7 lines bm tbl)).flatten) := by
  intro js
  induction js with
  | nil => intro acc; simp
  | cons j js ih =>
    intro acc
    rw [List.foldl_cons, ih]
    by_cases h1 : bm (diskEntry lines j).x (diskEntry lines j).y = sentinelResID
    · simp [pickC7, h1]
    · by_cases h2 : (tbl (diskEntry lines j).x (diskEntry lines j).y).length = 0
      · simp [pickC7, h1, h2]
      · simp only [pickC7, h1, h2, if_false, List.map_cons, List.flatten]
        simp [List.append_assoc]
        ring

/-- Claim C3: for every pixel buffer, after SortPhotonTables the buffer's
timestamps are non-decreasing, the multiset of events is exactly the input
multiset, and an already-sorted buffer is returned unchanged (no element
moved). -/
theorem C3_sort_correct (pt : Nat → Nat → PBuf) (x y : Nat) :
    tsSorted ((SortPhotonTables pt x y).data) ∧
    ((SortPhotonTables pt x y).data).Perm ((pt x y).data) ∧
    (tsSorted ((pt x y).data) → SortPhotonTables pt x y = pt x y) := by
  refine ⟨sortPhotons_sorted _, sortPhotons_perm _, fun h => ?_⟩
  show PBuf.mk (pt x y).cap (sortPhotons (pt x y).data) = pt x y
  rw [sortPhotons_id _ h]

/-- Witness for C3 at a concrete two-photon table that is already sorted. -/
theorem C3_witness :
    tsSorted ((SortPhotonTables (fun _ _ => PBuf.mk 2500 [p0, p3]) 0 0).data) ∧
    ((SortPhotonTables (fun _ _ => PBuf.mk 2500 [p0, p3]) 0 0).data).Perm [p0, p3] ∧
    SortPhotonTables (fun _ _ => PBuf.mk 2500 [p0, p3]) 0 0 = PBuf.mk 2500 [p0, p3] := by
  have h := C3_sort_correct (fun _ _ => PBuf.mk 2500 [p0, p3]) 0 0
  exact ⟨h.1, h.2.1, h.2.2 (by decide)⟩

/-- Claim C4: starting from the fresh 2500-photon table, after any sequence of
appends every store was in bounds, the table holds exactly the appended photons
in insertion order, the capacity is the invariant chunk multiple (positive and
divisible by 2500), and one more append grows the capacity by one chunk exactly
when the fill count is congruent to 2498 modulo 2500, i.e. has the form
2500k-2. -/
theorem C4_growth_policy (ps : List photon) :
    (appendRun ps).2 = true ∧
    (appendRun ps).1.data = ps ∧
    (appendRun ps).1.cap = capAfter ps.length ∧
    0 < (appendRun ps).1.cap ∧
    2500 ∣ (appendRun ps).1.cap ∧
    ∀ p : photon,
      ((appendRun (ps ++ [p])).1.cap = (appendRun ps).1.cap + 2500
        ↔ ps.length % 2500 = 2498) := by
  have hbase : (PBuf.mk 2500 ([] : List photon)).cap
      = capAfter (PBuf.mk 2500 ([] : List photon)).data.length := by
    decide
  have hrun : appendRun ps = (PBuf.mk (capAfter ps.length) ps, true) := by
    unfold appendRun
    simpa using appendRun_go ps (PBuf.mk 2500 []) true hbase
  have hrun2 : ∀ p : photon,
      appendRun (ps ++ [p]) = (PBuf.mk (capAfter (ps.length + 1)) (ps ++ [p]), true) := by
    intro p
    unfold appendRun
    simpa using appendRun_go (ps ++ [p]) (PBuf.mk 2500 []) true hbase
  refine ⟨by rw [hrun], by rw [hrun], by rw [hrun],
    by rw [hrun]; show 0 < capAfter ps.length; unfold capAfter; omega,
    by rw [hrun]; exact ⟨(ps.length + 1) / 2500 + 1, rfl⟩, fun p => ?_⟩
  rw [hrun2 p, hrun]
  show capAfter (ps.length + 1) = capAfter ps.length + 2500 ↔ ps.length % 2500 = 2498
  unfold capAfter
  omega

/-- Counterexample for claim C2: the C division truncates toward zero, not
toward minus infinity; at hardware timestamp 2000*1048576 with zero gap the
claimed floor formula gives -1 wrap while the code computes 0 wraps and leaves
the timestamp unchanged. -/
theorem C2_counterexample :
    nWrapsOf 2097152000 0 0 = 0 ∧
    nWrapsSpecC2 2097152000 0 0 = -1 ∧
    FixOverflowTimestamps 2097152000 0 0 = 2097152000 := by
  refine ⟨by decide, by decide, by decide⟩

/-- Claim C2 (amended): wraps is the truncated quotient of
(f - e - t/2000 + 3) by 1048576, which agrees with the claimed floor whenever
the numerator is non-negative; in particular wraps = 0 for a pre-wrap
timestamp, wraps = 1 exactly one period past, wraps is monotone in the nominal
file second, and the replacement adds 2000*wraps*1048576 to the timestamp
(modulo the 36-bit field, which does not truncate in these cases). -/
theorem C2_wraps_trunc_props (t : Nat) (f e : Int) :
    (0 ≤ f - e - (t / 2000 : Nat) + 3 →
      nWrapsOf t f e = (f - e - (t / 2000 : Nat) + 3) / 1048576) ∧
    (0 ≤ f - e - (t / 2000 : Nat) ∧ f - e - (t / 2000 : Nat) + 3 < 1048576 →
      nWrapsOf t f e = 0) ∧
    (f - e - (t / 2000 : Nat) = 1048576 → nWrapsOf t f e = 1) ∧
    (∀ f' : Int, f ≤ f' → nWrapsOf t f e ≤ nWrapsOf t f' e) ∧
    (t < 2 ^ 36 → nWrapsOf t f e = 0 → FixOverflowTimestamps t f e = t) ∧
    (t + 2097152000 < 2 ^ 36 → nWrapsOf t f e = 1 →
      FixOverflowTimestamps t f e = t + 2097152000) := by
  refine ⟨?_, ?_, ?_, ?_, ?_, ?_⟩
  · intro h
    unfold nWrapsOf cQuot
    rw [if_pos h]
    norm_num
  · intro h
    unfold nWrapsOf cQuot
    rw [if_pos (by omega)]
    omega
  · intro h
    unfold nWrapsOf cQuot
    rw [if_pos (by omega)]
    omega
  · intro f' hf
    unfold nWrapsOf cQuot
    split <;> split <;> omega
  · intro ht h0
    unfold FixOverflowTimestamps
    rw [h0]
    have hp : ((2 : Int) ^ 36) = 68719476736 := by norm_num
    have hq : (2 : Nat) ^ 36 = 68719476736 := by norm_num
    rw [hp]
    rw [hq] at ht
    omega
  · intro ht h1
    unfold FixOverflowTimestamps
    rw [h1]
    have hp : ((2 : Int) ^ 36) = 68719476736 := by norm_num
    have hq : (2 : Nat) ^ 36 = 68719476736 := by norm_num
    rw [hp]
    rw [hq] at ht
    omega

/-- Witness for C2: a pre-wrap timestamp gives 0 wraps and an unchanged
timestamp; a gap of exactly one period gives 1 wrap and adds 2000*1048576. -/
theorem C2_witness :
    nWrapsOf 4000 10 0 = 0 ∧ nWrapsOf 4000 1048578 0 = 1 ∧
    FixOverflowTimestamps 4000 10 0 = 4000 ∧
    FixOverflowTimestamps 4000 1048578 0 = 2097156000 := by
  have h1 := (C2_wraps_trunc_props 4000 10 0).2.1 (by decide)
  have h2 := (C2_wraps_trunc_props 4000 1048578 0).2.2.1 (by decide)
  have h3 := (C2_wraps_trunc_props 4000 10 0).2.2.2.2.1 (by decide) h1
  have h4 := (C2_wraps_trunc_props 4000 1048578 0).2.2.2.2.2 (by decide) h2
  exact ⟨h1, h2, h3, h4⟩

/-- Counterexample for claim C1: on a file whose final (only) packet is
[hW, dW], extract_photons produces no events at all, although handing that
very packet to ParseToMem appends one event, so the final packet is not
included as claimed. -/
theorem C1_counterexample :
    extract_photons env1 0 0 1 1 100 = (0, []) ∧
    ((ParseToMem [hW, dW] 0 0 0 (beamGrids env1).1 (beamGrids env1).2 1 1 1 0
        st1).ptable 0 0).data = [p0] := by
  constructor <;> decide

/-- Claim C1 (amended): only packets terminated by a later header word are
decoded.  A header-free tail (the final packet's data words) contributes no
packet: appending it leaves the framed packet list unchanged; every interior
packet, from one header match to the next, is framed and handed on. -/
theorem C1_final_packet_not_parsed :
    (∀ ws tail : List Nat, (∀ w ∈ tail, isHdrWord w = false) →
      framePackets (ws ++ tail) = framePackets ws) ∧
    (∀ (h : Nat) (mid : List Nat) (w : Nat) (tail : List Nat),
      isHdrWord h = true → (∀ m ∈ mid, isHdrWord m = false) → isHdrWord w = true →
      framePackets (h :: (mid ++ w :: tail)) = (h :: mid) :: framePackets (w :: tail)) := by
  constructor
  · intro ws tail htail
    induction ws with
    | nil =>
      rw [List.nil_append]
      unfold framePackets
      rw [dropWhile_nohdr tail htail]
      rfl
    | cons a ws ih =>
      rw [List.cons_append]
      unfold framePackets
      rw [List.dropWhile_cons, List.dropWhile_cons]
      by_cases ha : isHdrWord a
      · simp only [ha, Bool.not_true, Bool.false_eq_true, if_false]
        exact frameLoop_append ws tail htail [a]
      · simp only [ha, Bool.not_false, if_true]
        exact ih
  · intro h mid w tail hh hmid hw
    unfold framePackets
    rw [List.dropWhile_cons, List.dropWhile_cons]
    simp only [hh, hw, Bool.not_true, Bool.false_eq_true, if_false]
    rw [frameLoop_interior mid w tail hmid hw [h]]
    simp

/-- Witness for C1: appending the header-free word dW to [hW] frames the same
(empty) packet list. -/
theorem C1_witness : framePackets ([hW] ++ [dW]) = framePackets [hW] :=
  C1_final_packet_not_parsed.1 [hW] [dW] (by decide)

/- An environment whose directory check fails. -/
def envND : Env :=
  { dirExists := false, tsOffs := 0, files := fun _ => [], beamLines := [] }

/-- Counterexample for claim C5: env5's run decodes one event but the caller
passes an output capacity of 0; extract_photons still returns 1 (non-negative)
and still produces the event - the output-array size is never validated. -/
theorem C5_counterexample :
    extract_photons env5 0 0 1 1 0 = (1, [p0]) ∧ ¬(extract_photons env5 0 0 1 1 0).1 < 0 := by
  constructor <;> decide

/-- Claim C5 (amended): extract_photons returns the sentinel -1 and writes
nothing when the bin directory is missing or the file count
(integration_time+1, truncated to 32 bits) is outside [1,1800]; the
caller-supplied output capacity is never examined - the result is entirely
independent of n_max_photons. -/
theorem C5_setup_errors (env : Env) (s iT cols rows nmax : Nat) :
    (env.dirExists = false → extract_photons env s iT cols rows nmax = (-1, [])) ∧
    ((iT + 1) % 2 ^ 32 = 0 ∨ 1800 < (iT + 1) % 2 ^ 32 →
      extract_photons env s iT cols rows nmax = (-1, [])) ∧
    (∀ n n' : Nat,
      extract_photons env s iT cols rows n = extract_photons env s iT cols rows n') := by
  refine ⟨?_, ?_, fun n n' => rfl⟩
  · intro h
    simp [extract_photons, h]
  · intro h
    by_cases hd : env.dirExists = false
    · simp [extract_photons, hd]
    · have hd2 : env.dirExists = true := by revert hd; cases env.dirExists <;> simp
      simp only [extract_photons, hd2]
      rw [if_neg (by decide), if_pos (by omega)]

/-- Witness for C5: a missing directory and a 1801-file request both return the
sentinel with no output. -/
theorem C5_witness :
    extract_photons envND 0 0 1 1 0 = (-1, []) ∧
    extract_photons env5 0 1800 1 1 0 = (-1, []) := by
  exact ⟨(C5_setup_errors envND 0 0 1 1 0).1 (by decide),
    (C5_setup_errors env5 0 1800 1 1 0).2.1 (by decide)⟩

/-- Claim C6: a packet whose corrected header timestamp is earlier than the
run's tick origin (negative basetime) contributes nothing at all: ParseToMem
returns every pixel buffer and count unchanged. -/
theorem C6_early_packet_dropped (w0 : Nat) (ws : List Nat) (tsOffs FirstFile iFile : Nat)
    (bm bf : Nat → Nat → Nat) (mf cols rows tstart : Nat) (st : PTState)
    (h : (FixOverflowTimestamps (hdrTimestamp w0) ((FirstFile : Int) + (iFile : Int))
        (tsOffs : Int) : Int) < (tstart : Int)) :
    ParseToMem (w0 :: ws) tsOffs FirstFile iFile bm bf mf cols rows tstart st = st := by
  rw [ParseToMem_cons]
  split
  · rw [if_pos (by omega)]
  · rfl

/-- Witness for C6: with tick origin 999 and corrected header timestamp 0, the
packet [hW, dW] leaves the state untouched. -/
theorem C6_witness :
    ParseToMem [hW, dW] 0 0 0 (beamGrids env1).1 (beamGrids env1).2 1 1 1 999 st1 = st1 :=
  C6_early_packet_dropped hW [dW] 0 0 0 (beamGrids env1).1 (beamGrids env1).2 1 1 1 999 st1
    (by decide)

/-- Counterexample for claim C7: env7 has a 1-by-2 beam map but only one
beam-map line, so DiskBeamMap row 1 is all zeros and aliases pixel (0,0); its
single event is copied twice, refuting that no pixel's buffer is copied more
than once and that the output follows just the file's pixel list. -/
theorem C7_counterexample :
    extract_photons env7 0 0 1 2 100 = (2, [p0, p0]) ∧ env7.beamLines.length = 1 := by
  constructor <;> decide

/-- Claim C7 (amended): the output is the concatenation, over every DiskBeamMap
row index j below beamCols*beamRows, of the sorted buffer of the pixel named by
row j (rows beyond the file's line count are all-zero and name pixel (0,0)),
skipping sentinel-mapped and empty pixels, and the returned count equals the
number of photons written; a pixel named by several rows is copied once per
row.  When the setup checks pass, extract_photons is exactly this flatten pass
applied to the sorted per-pixel tables. -/
theorem C7_flatten_order (lines : List BeamLine) (bm : Nat → Nat → Nat)
    (tbl : Nat → Nat → List photon) (n : Nat) :
    ((flattenTables lines bm tbl n).2
      = ((List.range n).map (pickC7 lines bm tbl)).flatten ∧
    (flattenTables lines bm tbl n).1
      = (((List.range n).map (pickC7 lines bm tbl)).flatten.length : Int)) ∧
    (∀ (env : Env) (s iT cols rows nmax : Nat),
      env.dirExists = true → 1 ≤ (iT + 1) % 2 ^ 32 → (iT + 1) % 2 ^ 32 ≤ 1800 →
      extract_photons env s iT cols rows nmax
        = flattenTables env.beamLines (beamGrids env).1
            (fun x y => (SortPhotonTables
              (parsedState env s ((iT + 1) % 2 ^ 32) cols rows).ptable x y).data)
            (cols * rows)) := by
  constructor
  · unfold flattenTables
    rw [flattenTables_go lines bm tbl (List.range n) (0, [])]
    constructor
    · simp
    · simp
  · intro env s iT cols rows nmax hd h1 h2
    simp only [extract_photons, hd]
    rw [if_neg (by decide), if_neg (by omega)]

/-- Witness for C7's amended claim at env7's run: the extractor output equals
the flatten pass over the sorted tables. -/
theorem C7_witness :
    extract_photons env7 0 0 1 2 100
      = flattenTables env7.beamLines (beamGrids env7).1
          (fun x y => (SortPhotonTables
            (parsedState env7 0 ((0 + 1) % 2 ^ 32) 1 2).ptable x y).data) (1 * 2) :=
  (C7_flatten_order [] (fun _ _ => 0) (fun _ _ => []) 0).2 env7 0 0 1 2 100 (by decide)
    (by decide) (by decide)

/-- Claim C8: a data word whose pixel column or row is outside the beam-map
extents, or (in valid-pixels-only mode) whose pixel flag is nonzero, is skipped
silently and the rest of the packet is still processed identically. -/
theorem C8_skip_invalid_pixels (bm bf : Nat → Nat → Nat) (mf cols rows bt : Nat) (w : Nat) :
    (∀ st : PTState, cols ≤ dXcoord w ∨ rows ≤ dYcoord w →
      parseWord bm bf mf cols rows bt st w = st) ∧
    (∀ st : PTState, 0 < mf → 0 < bf (dXcoord w) (dYcoord w) →
      parseWord bm bf mf cols rows bt st w = st) ∧
    (∀ (w0 : Nat) (ws1 ws2 : List Nat) (tsOffs FirstFile iFile tstart : Nat) (st : PTState),
      (cols ≤ dXcoord w ∨ rows ≤ dYcoord w ∨ (0 < mf ∧ 0 < bf (dXcoord w) (dYcoord w))) →
      ParseToMem (w0 :: (ws1 ++ w :: ws2)) tsOffs FirstFile iFile bm bf mf cols rows tstart st
        = ParseToMem (w0 :: (ws1 ++ ws2)) tsOffs FirstFile iFile bm bf mf cols rows tstart
            st) := by
  refine ⟨fun st h => parseWord_skip_oob bm bf mf cols rows bt st w h,
    fun st h1 h2 => parseWord_skip_flag bm bf mf cols rows bt st w h1 h2, ?_⟩
  intro w0 ws1 ws2 tsOffs FirstFile iFile tstart st hskip
  have hpw : ∀ (bt' : Nat) (s : PTState), parseWord bm bf mf cols rows bt' s w = s := by
    intro bt' s
    rcases hskip with h | h | h
    · exact parseWord_skip_oob bm bf mf cols rows bt' s w (Or.inl h)
    · exact parseWord_skip_oob bm bf mf cols rows bt' s w (Or.inr h)
    · exact parseWord_skip_flag bm bf mf cols rows bt' s w h.1 h.2
  rw [ParseToMem_cons, ParseToMem_cons]
  split
  · split
    · rfl
    · rw [List.foldl_append, List.foldl_append, List.foldl_cons, hpw]
  · rfl

/-- Witness for C8: the word 2^54 decodes to xcoord 1, outside a 1-column map;
it is skipped on its own and its presence in a packet changes nothing. -/
theorem C8_witness :
    parseWord (beamGrids env1).1 (beamGrids env1).2 1 1 1 0 st1 (2 ^ 54) = st1 ∧
    ParseToMem [hW, 2 ^ 54, dW] 0 0 0 (beamGrids env1).1 (beamGrids env1).2 1 1 1 0 st1
      = ParseToMem [hW, dW] 0 0 0 (beamGrids env1).1 (beamGrids env1).2 1 1 1 0 st1 := by
  refine ⟨(C8_skip_invalid_pixels (beamGrids env1).1 (beamGrids env1).2 1 1 1 0 (2 ^ 54)).1
    st1 (by decide), ?_⟩
  have h := (C8_skip_invalid_pixels (beamGrids env1).1 (beamGrids env1).2 1 1 1 0 (2 ^ 54)).2.2
    hW [] [dW] 0 0 0 0 st1 (by decide)
  simpa using h

/-- Claim C9: extract_photons always runs in valid-pixels-only mode (the parse
pipeline is invoked with the mode hard-wired to 1 and the C signature offers no
way to disable it): any pixel whose final beam flag is nonzero ends the run
with an empty photon table, and a pixel absent from the beam-map file keeps the
flag value 1 it was initialized with, so its events never reach the output. -/
theorem C9_validonly_mode (env : Env) (FirstFile nFiles cols rows x y : Nat) :
    ((beamGrids env).2 x y ≠ 0 →
      ((parsedState env FirstFile nFiles cols rows).ptable x y).data = []) ∧
    ((∀ l ∈ env.beamLines, ¬(l.x = x ∧ l.y = y)) → (beamGrids env).2 x y = 1) := by
  refine ⟨fun h => parsedState_flag_inv env FirstFile nFiles cols rows x y h, fun h => ?_⟩
  exact (ParseBeamMapFile_unlisted env.beamLines (fun _ _ => sentinelResID) (fun _ _ => 1)
    x y h).2

/-- Witness for C9: pixel (3,7) is not in env7's beam-map file, keeps flag 1,
and ends the run with no photons. -/
theorem C9_witness :
    ((parsedState env7 0 1 1 2).ptable 3 7).data = [] ∧ (beamGrids env7).2 3 7 = 1 :=
  ⟨(C9_validonly_mode env7 0 1 1 2 3 7).1 (by decide),
   (C9_validonly_mode env7 0 1 1 2 3 7).2 (by decide)⟩

/-- Claim C10: every photon a packet appends carries the timestamp
(basetime*500 + subTimestamp) reduced modulo 2^32, the reduction coming from
the cast to uint32_t on store; products reaching 2^32 wrap. -/
theorem C10_timestamp_mod32 (w0 : Nat) (ws : List Nat) (tsOffs FirstFile iFile : Nat)
    (bm bf : Nat → Nat → Nat) (mf cols rows tstart : Nat) (st : PTState) (x y : Nat)
    (p : photon) (hhdr : hdrStart w0 = 255)
    (hbt : (tstart : Int) ≤ (FixOverflowTimestamps (hdrTimestamp w0)
      ((FirstFile : Int) + (iFile : Int)) (tsOffs : Int) : Int))
    (hmem : p ∈ ((ParseToMem (w0 :: ws) tsOffs FirstFile iFile bm bf mf cols rows tstart
      st).ptable x y).data) :
    p ∈ (st.ptable x y).data ∨
      ∃ w, w ∈ ws ∧ dXcoord w = x ∧ dYcoord w = y ∧
        p.timestamp =
          (((FixOverflowTimestamps (hdrTimestamp w0) ((FirstFile : Int) + (iFile : Int))
              (tsOffs : Int) : Int) - (tstart : Int)).toNat * 500 + dTimestamp w) % 2 ^ 32 := by
  rw [ParseToMem_cons, if_pos hhdr, if_neg (by omega)] at hmem
  exact foldl_parseWord_mem bm bf mf cols rows _ ws st x y p hmem

/-- Witness for C10, at a wrapping input: basetime 2^35 gives
2^35*500 + 7 = 4000*2^32 + 7, stored as timestamp 7. -/
theorem C10_witness :
    (⟨5, 7, 0, 1, 1⟩ : photon) ∈ (st7.ptable 0 0).data ∨
    ∃ w, w ∈ [dW7] ∧ dXcoord w = 0 ∧ dYcoord w = 0 ∧
      (⟨5, 7, 0, 1, 1⟩ : photon).timestamp =
        (((FixOverflowTimestamps (hdrTimestamp h35) (((17179869 : Nat) : Int) + ((0 : Nat) : Int))
            ((0 : Nat) : Int) : Int) - ((0 : Nat) : Int)).toNat * 500 + dTimestamp w) % 2 ^ 32 :=
  C10_timestamp_mod32 h35 [dW7] 0 17179869 0 (beamGrids env7).1 (beamGrids env7).2 1 1 1 0
    st7 0 0 ⟨5, 7, 0, 1, 1⟩ (by decide) (by decide) (by decide)
